import Mathlib

/-!
Shallow embedding of the hermes command-safety classification engine.

Source files embedded here:
- internal/safety/safety.go  : SafetyLevel, Result, Analyzer (NewAnalyzer rule
  tables and AnalyzeCommand), the exit-code mapping of SafetyLevel.
- internal/exit/exit.go      : exit code constants.
- internal/commands/generate.go (RunE) : the hybrid merge of the pattern
  verdict with the AI safety opinion.
- internal/ai/gemini.go (parseGenerateResponse) : the conversion of the model
  response safety field into a SafetyLevel.

Command strings are modelled as List Char.  The Go regexp patterns of
NewAnalyzer are translated into a small regular-expression AST (Re) whose
matcher enumerates, for each start position, every end position of a match;
MatchString is satisfiability of a match at some start position, exactly the
boolean contract of Go regexp MatchString.  Every repetition operator in the
source patterns applies to a single-character class, so the AST only needs
star and plus over character predicates, which keeps the matcher structurally
recursive and executable.
-/

namespace Hermes

/-- CodeSuccess from internal/exit/exit.go: exit code 0, safe command. -/
def CodeSuccess : Int := 0

/-- CodeError from internal/exit/exit.go: exit code 1, generic error. -/
def CodeError : Int := 1

/-- CodeDangerous from internal/exit/exit.go: exit code 10, requires attention. -/
def CodeDangerous : Int := 10

/-- SafetyLevel from safety.go is a Go int (type SafetyLevel int), so every
integer is a representable level, not only the two declared constants. -/
abbrev SafetyLevel := Int

/-- Safe = iota = 0. -/
def Safe : SafetyLevel := 0

/-- Attention = iota successor = 1. -/
def Attention : SafetyLevel := 1

/-- String method of SafetyLevel in safety.go (switch with default
"unknown"); named lowercase to avoid shadowing the Lean String type. -/
def SafetyLevel.string (s : SafetyLevel) : String :=
  if s = Safe then "safe"
  else if s = Attention then "attention"
  else "unknown"

/-- ExitCode method of SafetyLevel in safety.go (switch with default
CodeError). -/
def SafetyLevel.ExitCode (s : SafetyLevel) : Int :=
  if s = Safe then CodeSuccess
  else if s = Attention then CodeDangerous
  else CodeError

/-- Result struct from safety.go: level, human-readable reason, and the layer
that made the decision. -/
structure Result where
  Level : SafetyLevel
  Reason : String
  Layer : String
deriving DecidableEq

/-- Word characters of the Go regexp escape backslash-b and backslash-w:
ASCII letters, digits and underscore. -/
def isWordChar (c : Char) : Bool :=
  (decide ('a' ≤ c) && decide (c ≤ 'z')) ||
  (decide ('A' ≤ c) && decide (c ≤ 'Z')) ||
  (decide ('0' ≤ c) && decide (c ≤ '9')) ||
  c == '_'

/-- Whitespace class of the Go regexp escape backslash-s: tab, newline, form
feed, carriage return, space. -/
def wsp (c : Char) : Bool :=
  c == ' ' || c == '\t' || c == '\n' || c == '\x0c' || c == '\r'

/-- Dot of Go regexp: any character except newline. -/
def dotc (c : Char) : Bool :=
  !(c == '\n')

/-- Class of the bracket expression [rf]. -/
def rfc (c : Char) : Bool :=
  c == 'r' || c == 'f'

/-- Regular-expression AST covering exactly the constructs used by the
NewAnalyzer patterns: literal strings, concatenation, alternation, star and
plus over a character class, the word-boundary assertion, and the start and
end of text anchors. -/
inductive Re where
  | str (cs : List Char)
  | seq (a b : Re)
  | alt (a b : Re)
  | star (p : Char → Bool)
  | plus (p : Char → Bool)
  | bound
  | bos
  | eos

/-- Length of the maximal run of characters satisfying p at the head of a
list. -/
def takeRun (p : Char → Bool) : List Char → Nat
  | [] => 0
  | c :: cs => if p c then takeRun p cs + 1 else 0

/-- Truth of the word-character predicate at a position (false past the end),
used by the word-boundary assertion. -/
def wordAt (s : List Char) (i : Nat) : Bool :=
  match s.get? i with
  | some c => isWordChar c
  | none => false

/-- Word boundary at position i of s: at 0 it holds when the first character
is a word character; inside, when exactly one of the two adjacent characters
is a word character (positions past the end count as non-word). -/
def isBoundary (s : List Char) (i : Nat) : Bool :=
  match i with
  | 0 => wordAt s 0
  | j + 1 => wordAt s j != wordAt s (j + 1)

/-- End positions of matches of a regular expression starting at position i
of s: j is listed exactly when the expression matches the span from i to j. -/
def Re.ends : Re → List Char → Nat → List Nat
  | .str cs, s, i => if (s.drop i).take cs.length = cs then [i + cs.length] else []
  | .seq a b, s, i => (a.ends s i).flatMap (b.ends s)
  | .alt a b, s, i => a.ends s i ++ b.ends s i
  | .star p, s, i => (List.range (takeRun p (s.drop i) + 1)).map (fun k => i + k)
  | .plus p, s, i => (List.range (takeRun p (s.drop i))).map (fun k => i + 1 + k)
  | .bound, s, i => if isBoundary s i then [i] else []
  | .bos, _, i => if i = 0 then [i] else []
  | .eos, s, i => if i = s.length then [i] else []

/-- MatchString of Go regexp: the expression matches somewhere in s, i.e.
some start position admits at least one match end. -/
def Re.matchString (r : Re) (s : List Char) : Bool :=
  (List.range (s.length + 1)).any (fun i => !(r.ends s i).isEmpty)

/-- Literal string atom. -/
def lit (s : String) : Re := .str s.toList

/-- Concatenation of a list of atoms (left-nested apart from the final
element, which only changes bracketing, not the match relation we use). -/
def cat : List Re → Re
  | [] => .str []
  | [r] => r
  | r :: rs => .seq r (cat rs)

/-- Anchored pattern shape of every safe rule: caret, a command name, a
continuation.  The safe rules of NewAnalyzer are all of this form. -/
def anch (name : String) (rest : Re) : Re :=
  .seq .bos (.seq (.str name.toList) rest)

/-- Group (start|stop|restart|enable|disable). -/
def svcVerbs : Re :=
  .alt (lit "start") (.alt (lit "stop") (.alt (lit "restart") (.alt (lit "enable") (lit "disable"))))

/-- Group (install|remove|update|upgrade). -/
def aptVerbs : Re :=
  .alt (lit "install") (.alt (lit "remove") (.alt (lit "update") (lit "upgrade")))

/-- Group (install|remove|update). -/
def yumVerbs : Re :=
  .alt (lit "install") (.alt (lit "remove") (lit "update"))

/-- Group (status|log|diff|branch|show). -/
def gitVerbs : Re :=
  .alt (lit "status") (.alt (lit "log") (.alt (lit "diff") (.alt (lit "branch") (lit "show"))))

/-- Group (-[rf]+|--recursive|--force) of the dangerous rm pattern. -/
def rmFlags : Re :=
  .alt (.seq (lit "-") (.plus rfc)) (.alt (lit "--recursive") (lit "--force"))

/-- attentionPatterns of NewAnalyzer in safety.go, one AST per compiled
regexp, in declaration order. -/
def attentionPatterns : List Re :=
  [ cat [.bound, lit "sudo", .bound],
    cat [.bound, lit "rm", .plus wsp, .star dotc, rmFlags, .star dotc, .plus wsp, lit "/", .star wsp, .eos],
    cat [.bound, lit "dd", .plus wsp, .star dotc, lit "of=/dev/sd"],
    cat [.bound, lit "mkfs", .bound],
    cat [.bound, lit "fdisk", .bound],
    cat [.bound, lit "shred", .bound],
    cat [.bound, lit "wipe", .bound],
    cat [.bound, lit "chmod", .plus wsp, lit "777"],
    cat [lit ">", .star wsp, lit "/dev/sd"],
    cat [.bound, lit "curl", .plus wsp, .star dotc, lit "|", .star wsp, lit "sh"],
    cat [.bound, lit "wget", .plus wsp, .star dotc, lit "|", .star wsp, lit "sh"],
    cat [.bound, lit "systemctl", .plus wsp, svcVerbs, .bound],
    cat [.bound, lit "apt", .plus wsp, aptVerbs, .bound],
    cat [.bound, lit "yum", .plus wsp, yumVerbs, .bound],
    cat [.bound, lit "pacman", .plus wsp, lit "-S", .bound],
    cat [.bound, lit "modprobe", .bound],
    cat [.bound, lit "mount", .bound],
    cat [.bound, lit "umount", .bound],
    cat [.bound, lit "iptables", .bound] ]

/-- safePatterns of NewAnalyzer in safety.go, one AST per compiled regexp, in
declaration order; every one is anchored at the start of the string. -/
def safePatterns : List Re :=
  [ anch "ls" .bound,
    anch "cd" .bound,
    anch "pwd" .bound,
    anch "echo" .bound,
    anch "cat" .bound,
    anch "head" .bound,
    anch "tail" .bound,
    anch "grep" .bound,
    anch "find" .bound,
    anch "git" (.seq (.plus wsp) (.seq gitVerbs .bound)),
    anch "ps" .bound,
    anch "which" .bound,
    anch "whereis" .bound,
    anch "man" .bound,
    anch "help" .bound,
    anch "systemctl" (.seq (.plus wsp) (.seq (lit "status") .bound)) ]

/-- AnalyzeCommand of safety.go: the attention loop, then the safe loop, then
the default.  Each Go loop returns one fixed Result at the first matching
pattern, so the loop is equivalent to an any-test over the list; the error
component of the Go return value is nil on every path, modelled as none. -/
def AnalyzeCommand (command : List Char) : Result × Option String :=
  if attentionPatterns.any (fun p => p.matchString command) then
    ({ Level := Attention
       Reason := "Command requires user attention"
       Layer := "attention-patterns" }, none)
  else if safePatterns.any (fun p => p.matchString command) then
    ({ Level := Safe
       Reason := "Command is known to be safe"
       Layer := "safe-patterns" }, none)
  else
    ({ Level := Safe
       Reason := "Command passed basic safety checks (AI analysis not yet implemented)"
       Layer := "default-safe" }, none)

/-- Hybrid merge from the RunE of generate.go: the pattern result is kept
when it is Attention; otherwise an Attention AI opinion upgrades it to the
ai-assessment result; otherwise the pattern result is kept. -/
def mergeResults (result : Result) (aiSafetyLevel : SafetyLevel) : Result :=
  if result.Level = Attention then
    result
  else if aiSafetyLevel = Attention then
    { Level := Attention
      Reason := "AI flagged as requiring attention"
      Layer := "ai-assessment" }
  else
    result

/-- geminiResponse struct of gemini.go: the JSON shape of the model reply. -/
structure geminiResponse where
  Command : String
  Safety : String
  Explanation : String
deriving DecidableEq

/-- GenerateResponse struct of the ai package, as filled by
parseGenerateResponse. -/
structure GenerateResponse where
  Command : String
  SafetyLevel : Hermes.SafetyLevel
  Reasoning : String
deriving DecidableEq

/-- Safety-field conversion switch of parseGenerateResponse in gemini.go:
"SAFE" and "ATTENTION" map to the two levels, and the default case maps any
other value to Attention. -/
def convertSafety (s : String) : SafetyLevel :=
  if s = "SAFE" then Safe
  else if s = "ATTENTION" then Attention
  else Attention

/-- Tail of parseGenerateResponse in gemini.go after a successful JSON
unmarshal: the decoded geminiResponse is converted and returned with a nil
error; the earlier returns of that function (no candidates, empty text,
unmarshal failure) are the only error paths. -/
def parseGenerateResponseDecoded (g : geminiResponse) : Except String GenerateResponse :=
  Except.ok
    { Command := g.Command
      SafetyLevel := convertSafety g.Safety
      Reasoning := g.Explanation }

/-! Helper lemmas about the matcher, shared by several claim proofs. -/

/-- Element lookup in an appended list at an offset past the first part. -/
theorem get?_append_add (u v : List Char) (k : Nat) : (u ++ v).get? (u.length + k) = v.get? k := by
  induction u with
  | nil => simp
  | cons a u ih =>
    show ((a :: u) ++ v).get? ((a :: u).length + k) = v.get? k
    simp only [List.cons_append, List.length_cons]
    rw [Nat.add_right_comm]
    simpa using ih

/-- Element lookup expressed through drop. -/
theorem get?_eq_head?_drop (s : List Char) (i : Nat) : s.get? i = (s.drop i).head? := by
  induction s generalizing i with
  | nil => simp
  | cons a s ih =>
    cases i with
    | zero => simp
    | succ j =>
      simp only [List.get?_cons_succ, List.drop_succ_cons]
      exact ih j

/-- Nonempty flatMap has a nonempty fibre. -/
theorem flatMap_ne_nil {l : List Nat} {f : Nat → List Nat} (h : l.flatMap f ≠ []) :
    ∃ j ∈ l, f j ≠ [] := by
  simpa using h

/-- Nonempty match-end list of a concatenation splits at an intermediate
position. -/
theorem ends_seq_ne {a b : Re} {s : List Char} {i : Nat}
    (h : (Re.seq a b).ends s i ≠ []) : ∃ j ∈ a.ends s i, b.ends s j ≠ [] := by
  simp only [Re.ends] at h
  exact flatMap_ne_nil h

/-- Membership in the match ends of the start-of-text anchor forces position
zero. -/
theorem mem_ends_bos {s : List Char} {i j : Nat} (hj : j ∈ Re.bos.ends s i) :
    i = 0 ∧ j = 0 := by
  simp only [Re.ends] at hj
  by_cases h0 : i = 0
  · subst h0
    simp at hj
    exact ⟨rfl, hj⟩
  · simp [h0] at hj

/-- Membership in the match ends of a literal yields the literal as a slice
and fixes the end position. -/
theorem mem_ends_str {cs s : List Char} {i j : Nat} (hj : j ∈ (Re.str cs).ends s i) :
    (s.drop i).take cs.length = cs ∧ j = i + cs.length := by
  simp only [Re.ends] at hj
  by_cases h : (s.drop i).take cs.length = cs
  · simp [h] at hj
    exact ⟨h, hj⟩
  · simp [h] at hj

/-- Nonempty match ends of the word-boundary assertion yield the boundary
fact. -/
theorem ends_bound_ne {s : List Char} {i : Nat} (h : Re.bound.ends s i ≠ []) :
    isBoundary s i = true := by
  simp only [Re.ends] at h
  by_cases hb : isBoundary s i
  · exact hb
  · simp [hb] at h

/-- Nonempty match ends of a plus yield a first character in the class. -/
theorem ends_plus_ne {p : Char → Bool} {s : List Char} {i : Nat}
    (h : (Re.plus p).ends s i ≠ []) : ∃ c, s.get? i = some c ∧ p c = true := by
  simp only [Re.ends] at h
  have hpos : takeRun p (s.drop i) ≠ 0 := by
    intro h0
    simp [h0] at h
  rcases hd : s.drop i with _ | ⟨c, cs⟩
  · rw [hd] at hpos
    simp [takeRun] at hpos
  · rw [hd] at hpos
    rw [get?_eq_head?_drop, hd]
    refine ⟨c, rfl, ?_⟩
    by_cases hc : p c
    · exact hc
    · simp [takeRun, hc] at hpos

/-- Successful match of a pattern somewhere in the string yields a start
position with a nonempty end list. -/
theorem matchString_exists {r : Re} {s : List Char} (h : r.matchString s = true) :
    ∃ i, r.ends s i ≠ [] := by
  simp only [Re.matchString, List.any_eq_true] at h
  rcases h with ⟨i, _, hi⟩
  refine ⟨i, fun hnil => ?_⟩
  rw [hnil] at hi
  simp at hi

/-- Match of an anchored pattern forces its literal head to be a prefix of
the string and continues at the position right after it. -/
theorem anch_head_front {name : List Char} {rest : Re} {c : List Char}
    (h : (Re.seq .bos (.seq (.str name) rest)).matchString c = true) :
    ∃ t, c = name ++ t ∧ rest.ends c name.length ≠ [] := by
  rcases matchString_exists h with ⟨i, hi⟩
  rcases ends_seq_ne hi with ⟨j, hj, hX⟩
  rcases mem_ends_bos hj with ⟨rfl, rfl⟩
  rcases ends_seq_ne hX with ⟨k, hk, hrest⟩
  rcases mem_ends_str hk with ⟨hpre, rfl⟩
  simp only [List.drop_zero] at hpre
  refine ⟨c.drop name.length, ?_, ?_⟩
  · conv_lhs => rw [← List.take_append_drop name.length c, hpre]
  · simpa using hrest

/-- Whitespace characters of the source patterns are not word characters. -/
theorem wsp_not_word {c : Char} (h : wsp c = true) : isWordChar c = false := by
  have hc : (((c = ' ' ∨ c = '\t') ∨ c = '\n') ∨ c = '\x0c') ∨ c = '\r' := by
    simpa [wsp] using h
  rcases hc with (((rfl | rfl) | rfl) | rfl) | rfl <;> decide

/-- Element lookup in an appended list exactly at the end of the first
part. -/
theorem get?_append_len (u v : List Char) : (u ++ v).get? u.length = v.get? 0 := by
  simpa using get?_append_add u v 0

/-- Match of an anchored rule whose continuation is just a word boundary: the
command equals the rule name followed by a remainder that is empty or starts
with a non-word character. -/
theorem anch_bound_matches {name : List Char} {c : List Char}
    (hne : name ≠ []) (hw : wordAt name (name.length - 1) = true)
    (h : (Re.seq .bos (.seq (.str name) .bound)).matchString c = true) :
    ∃ t, c = name ++ t ∧ (t = [] ∨ ∃ d t2, t = d :: t2 ∧ isWordChar d = false) := by
  rcases anch_head_front h with ⟨t, rfl, hrest⟩
  have hb : isBoundary (name ++ t) name.length = true := ends_bound_ne hrest
  obtain ⟨front, lc, rfl⟩ : ∃ L b, name = L ++ [b] := by
    rcases List.eq_nil_or_concat name with h0 | ⟨L, b, hL⟩
    · exact absurd h0 hne
    · exact ⟨L, b, by simpa [List.concat_eq_append] using hL⟩
  have hlen : (front ++ [lc]).length = front.length + 1 := by simp
  have hbefore : wordAt ((front ++ [lc]) ++ t) front.length = isWordChar lc := by
    unfold wordAt
    rw [List.append_assoc, get?_append_len]
    rfl
  have hafter : wordAt ((front ++ [lc]) ++ t) (front.length + 1) =
      (match t.get? 0 with | some d => isWordChar d | none => false) := by
    unfold wordAt
    rw [List.append_assoc, get?_append_add front ([lc] ++ t) 1]
    rfl
  have hwlc : isWordChar lc = true := by
    rw [hlen] at hw
    simpa [wordAt, get?_append_len] using hw
  rw [hlen] at hb
  simp only [isBoundary] at hb
  rw [hbefore, hafter, hwlc] at hb
  refine ⟨t, rfl, ?_⟩
  cases t with
  | nil => exact Or.inl rfl
  | cons d t2 =>
    refine Or.inr ⟨d, t2, rfl, ?_⟩
    simpa using hb

/-- Match of an anchored rule whose continuation starts with mandatory
whitespace: the command equals the rule name followed by a remainder whose
first character is whitespace, hence not a word character. -/
theorem anch_ws_matches {name : List Char} {X : Re} {c : List Char}
    (h : (Re.seq .bos (.seq (.str name) (.seq (.plus wsp) X))).matchString c = true) :
    ∃ t, c = name ++ t ∧ ∃ d t2, t = d :: t2 ∧ isWordChar d = false := by
  rcases anch_head_front h with ⟨t, rfl, hrest⟩
  rcases ends_seq_ne hrest with ⟨j, hj, _⟩
  have hplus : (Re.plus wsp).ends (name ++ t) name.length ≠ [] := by
    intro h0
    rw [h0] at hj
    simp at hj
  rcases ends_plus_ne hplus with ⟨d, hd, hwd⟩
  rw [get?_append_len] at hd
  cases t with
  | nil => simp at hd
  | cons d0 t2 =>
    have hdd : d0 = d := by simpa using hd
    subst hdd
    exact ⟨d0 :: t2, rfl, d0, t2, rfl, wsp_not_word hwd⟩

/-! Claim theorems. -/

/-- C1: merge monotonicity.  For a pattern result p and a model opinion m
drawn from the two declared levels, the merged level is Attention exactly
when p is Attention or m is Attention, and it is Safe only when both inputs
are Safe. -/
theorem merge_monotonic (p : Result) (m : SafetyLevel)
    (hm : m = Safe ∨ m = Attention) :
    ((mergeResults p m).Level = Attention ↔ (p.Level = Attention ∨ m = Attention)) ∧
    ((mergeResults p m).Level = Safe → p.Level = Safe ∧ m = Safe) := by
  by_cases hp : p.Level = Attention
  · constructor
    · simp [mergeResults, hp]
    · intro hs
      rw [mergeResults, if_pos hp, hp] at hs
      exact absurd hs (by decide)
  · by_cases hq : m = Attention
    · constructor
      · simp [mergeResults, hp, hq]
      · intro hs
        simp [mergeResults, hp, hq] at hs
        exact absurd hs (by decide)
    · have hm0 : m = Safe := hm.resolve_right hq
      constructor
      · simp [mergeResults, hp, hq]
      · intro hs
        rw [mergeResults, if_neg hp, if_neg hq] at hs
        exact ⟨hs, hm0⟩

/-- Witness for merge_monotonic at a concrete safe pattern result and an
Attention model opinion. -/
theorem merge_monotonic_witness :
    ((mergeResults ⟨Safe, "Command is known to be safe", "safe-patterns"⟩ Attention).Level = Attention ↔
      ((⟨Safe, "Command is known to be safe", "safe-patterns"⟩ : Result).Level = Attention ∨ Attention = Attention)) ∧
    ((mergeResults ⟨Safe, "Command is known to be safe", "safe-patterns"⟩ Attention).Level = Safe →
      (⟨Safe, "Command is known to be safe", "safe-patterns"⟩ : Result).Level = Safe ∧ Attention = Safe) :=
  merge_monotonic _ _ (Or.inr rfl)

/-- C2: attention precedence.  A command that matches at least one attention
rule and at least one safe rule is classified Attention with the
attention-pattern provenance (layer string "attention-patterns"), because the
attention list is evaluated first and short-circuits. -/
theorem attention_precedence (c : List Char)
    (ha : ∃ r ∈ attentionPatterns, r.matchString c = true)
    (_hs : ∃ r ∈ safePatterns, r.matchString c = true) :
    (AnalyzeCommand c).1.Level = Attention ∧
    (AnalyzeCommand c).1.Layer = "attention-patterns" := by
  have h1 : attentionPatterns.any (fun p => p.matchString c) = true :=
    List.any_eq_true.mpr ha
  rw [AnalyzeCommand, if_pos h1]
  exact ⟨rfl, rfl⟩

/-- Witness for attention_precedence on a command matching both the anchored
ls safe rule and the sudo attention rule. -/
theorem attention_precedence_witness :
    (AnalyzeCommand "ls sudo".toList).1.Level = Attention ∧
    (AnalyzeCommand "ls sudo".toList).1.Layer = "attention-patterns" :=
  attention_precedence "ls sudo".toList (by decide) (by decide)

/-- C5 counterexample: the command of the spec scenario matches no rule, yet
its reason is the source literal rather than "no rule matched" and its layer
literal is "default-safe" rather than "default-fallback". -/
theorem default_reason_counterexample :
    (∀ r ∈ attentionPatterns, r.matchString "some_custom_tool --flag".toList = false) ∧
    (∀ r ∈ safePatterns, r.matchString "some_custom_tool --flag".toList = false) ∧
    (AnalyzeCommand "some_custom_tool --flag".toList).1.Level = Safe ∧
    (AnalyzeCommand "some_custom_tool --flag".toList).1.Reason ≠ "no rule matched" ∧
    (AnalyzeCommand "some_custom_tool --flag".toList).1.Layer = "default-safe" := by decide

/-- C5 amended: a command matching no attention rule and no safe rule is
classified exactly Safe with the default-layer reason string of the source
("Command passed basic safety checks (AI analysis not yet implemented)") and
layer "default-safe", with a nil error. -/
theorem default_fallback_result (c : List Char)
    (ha : ∀ r ∈ attentionPatterns, r.matchString c = false)
    (hs : ∀ r ∈ safePatterns, r.matchString c = false) :
    AnalyzeCommand c =
      ({ Level := Safe
         Reason := "Command passed basic safety checks (AI analysis not yet implemented)"
         Layer := "default-safe" }, none) := by
  have h1 : attentionPatterns.any (fun p => p.matchString c) = false :=
    List.any_eq_false.mpr (fun r hr => by simp [ha r hr])
  have h2 : safePatterns.any (fun p => p.matchString c) = false :=
    List.any_eq_false.mpr (fun r hr => by simp [hs r hr])
  rw [AnalyzeCommand, if_neg (by simp [h1]), if_neg (by simp [h2])]

/-- Witness for default_fallback_result on the spec scenario command. -/
theorem default_fallback_result_witness :
    AnalyzeCommand "some_custom_tool --flag".toList =
      ({ Level := Safe
         Reason := "Command passed basic safety checks (AI analysis not yet implemented)"
         Layer := "default-safe" }, none) :=
  default_fallback_result "some_custom_tool --flag".toList (by decide) (by decide)

/-- C3 counterexample: SafetyLevel is a Go int, so levels other than Safe and
Attention are representable; 999 is neither, and its exit code is the generic
error code 1, not 0 or 10. -/
theorem safetyLevel_not_closed :
    ¬ ((999 : SafetyLevel) = Safe ∨ (999 : SafetyLevel) = Attention) ∧
    SafetyLevel.ExitCode 999 = 1 ∧ (1 : Int) ≠ 0 ∧ (1 : Int) ≠ 10 := by decide

/-- C3 amended: the exit-code mapping sends Safe to 0 and Attention to 10,
and every other representable level to the generic error code 1. -/
theorem toExitCode_mapping :
    SafetyLevel.ExitCode Safe = 0 ∧ SafetyLevel.ExitCode Attention = 10 ∧
    ∀ s : SafetyLevel, s ≠ Safe → s ≠ Attention → SafetyLevel.ExitCode s = 1 := by
  refine ⟨by decide, by decide, ?_⟩
  intro s h1 h2
  simp [SafetyLevel.ExitCode, h1, h2, CodeError]

/-- Witness for toExitCode_mapping on the out-of-range level 999. -/
theorem toExitCode_mapping_witness : SafetyLevel.ExitCode 999 = 1 :=
  toExitCode_mapping.2.2 999 (by decide) (by decide)

/-- C4: classification is total and never fails; for every command string,
AnalyzeCommand returns a Result paired with a nil error. -/
theorem analyzeCommand_total (c : List Char) :
    ∃ r : Result, AnalyzeCommand c = (r, none) := by
  unfold AnalyzeCommand
  by_cases h1 : attentionPatterns.any (fun p => p.matchString c)
  · exact ⟨_, by rw [if_pos h1]⟩
  · by_cases h2 : safePatterns.any (fun p => p.matchString c)
    · exact ⟨_, by rw [if_neg h1, if_pos h2]⟩
    · exact ⟨_, by rw [if_neg h1, if_neg h2]⟩

/-- C6: an Attention pattern verdict passes through the merge completely
unchanged, whatever the model opinion. -/
theorem merge_preserves_attention (p : Result) (m : SafetyLevel)
    (hp : p.Level = Attention) : mergeResults p m = p := by
  simp [mergeResults, hp]

/-- Witness for merge_preserves_attention on a concrete attention result and
a Safe model opinion. -/
theorem merge_preserves_attention_witness :
    mergeResults ⟨Attention, "Command requires user attention", "attention-patterns"⟩ Safe =
      ⟨Attention, "Command requires user attention", "attention-patterns"⟩ :=
  merge_preserves_attention _ Safe rfl

/-- C7 counterexample: the upgraded result carries the layer ai-assessment
but its reason string is the source literal, not the wording the claim
gives. -/
theorem merge_upgrade_reason_counterexample :
    (mergeResults ⟨Safe, "Command is known to be safe", "safe-patterns"⟩ Attention).Level = Attention ∧
    (mergeResults ⟨Safe, "Command is known to be safe", "safe-patterns"⟩ Attention).Layer = "ai-assessment" ∧
    (mergeResults ⟨Safe, "Command is known to be safe", "safe-patterns"⟩ Attention).Reason ≠
      "external judgment flagged as requiring attention" := by decide

/-- C7 amended: merging a Safe pattern result with an Attention model opinion
returns exactly the Attention result with reason "AI flagged as requiring
attention" and layer ai-assessment. -/
theorem merge_upgrade_on_model_attention (p : Result) (hp : p.Level = Safe) :
    mergeResults p Attention =
      { Level := Attention
        Reason := "AI flagged as requiring attention"
        Layer := "ai-assessment" } := by
  have hne : ¬ p.Level = Attention := by
    rw [hp]
    decide
  simp [mergeResults, hne]

/-- Witness for merge_upgrade_on_model_attention on a concrete safe pattern
result. -/
theorem merge_upgrade_on_model_attention_witness :
    mergeResults ⟨Safe, "Command is known to be safe", "safe-patterns"⟩ Attention =
      { Level := Attention
        Reason := "AI flagged as requiring attention"
        Layer := "ai-assessment" } :=
  merge_upgrade_on_model_attention _ rfl

/-- C8: safe-rule anchoring.  Every safe rule is the anchored pattern of a
command name, and it matches a command only when that name is the leading
token of the string: the command is the name followed by a remainder that is
empty or starts with a non-word character.  In particular a safe command name
appearing later in a pipeline can never fire a safe rule. -/
theorem safe_rule_anchored (c : List Char) (r : Re) (hr : r ∈ safePatterns)
    (hm : r.matchString c = true) :
    ∃ name rest, r = Re.seq Re.bos (Re.seq (Re.str name) rest) ∧
      ∃ t, c = name ++ t ∧ (t = [] ∨ ∃ d t2, t = d :: t2 ∧ isWordChar d = false) := by
  simp only [safePatterns, List.mem_cons, List.not_mem_nil, or_false] at hr
  rcases hr with rfl | rfl | rfl | rfl | rfl | rfl | rfl | rfl | rfl | rfl | rfl | rfl | rfl | rfl | rfl | rfl
  · exact ⟨"ls".toList, .bound, rfl, anch_bound_matches (by decide) (by decide) hm⟩
  · exact ⟨"cd".toList, .bound, rfl, anch_bound_matches (by decide) (by decide) hm⟩
  · exact ⟨"pwd".toList, .bound, rfl, anch_bound_matches (by decide) (by decide) hm⟩
  · exact ⟨"echo".toList, .bound, rfl, anch_bound_matches (by decide) (by decide) hm⟩
  · exact ⟨"cat".toList, .bound, rfl, anch_bound_matches (by decide) (by decide) hm⟩
  · exact ⟨"head".toList, .bound, rfl, anch_bound_matches (by decide) (by decide) hm⟩
  · exact ⟨"tail".toList, .bound, rfl, anch_bound_matches (by decide) (by decide) hm⟩
  · exact ⟨"grep".toList, .bound, rfl, anch_bound_matches (by decide) (by decide) hm⟩
  · exact ⟨"find".toList, .bound, rfl, anch_bound_matches (by decide) (by decide) hm⟩
  · obtain ⟨t, h1, h2⟩ := anch_ws_matches (X := .seq gitVerbs .bound) hm
    exact ⟨"git".toList, .seq (.plus wsp) (.seq gitVerbs .bound), rfl, t, h1, Or.inr h2⟩
  · exact ⟨"ps".toList, .bound, rfl, anch_bound_matches (by decide) (by decide) hm⟩
  · exact ⟨"which".toList, .bound, rfl, anch_bound_matches (by decide) (by decide) hm⟩
  · exact ⟨"whereis".toList, .bound, rfl, anch_bound_matches (by decide) (by decide) hm⟩
  · exact ⟨"man".toList, .bound, rfl, anch_bound_matches (by decide) (by decide) hm⟩
  · exact ⟨"help".toList, .bound, rfl, anch_bound_matches (by decide) (by decide) hm⟩
  · obtain ⟨t, h1, h2⟩ := anch_ws_matches (X := .seq (lit "status") .bound) hm
    exact ⟨"systemctl".toList, .seq (.plus wsp) (.seq (lit "status") .bound), rfl, t, h1, Or.inr h2⟩

/-- Witness for safe_rule_anchored: the anchored ls rule matching a concrete
ls command. -/
theorem safe_rule_anchored_witness :
    ∃ name rest, anch "ls" Re.bound = Re.seq Re.bos (Re.seq (Re.str name) rest) ∧
      ∃ t, "ls -la".toList = name ++ t ∧
        (t = [] ∨ ∃ d t2, t = d :: t2 ∧ isWordChar d = false) :=
  safe_rule_anchored "ls -la".toList (anch "ls" Re.bound) (by simp [safePatterns]) (by decide)

/-- C9 counterexample: a decoded model response whose safety field is neither
"SAFE" nor "ATTENTION" is converted successfully (no error) into an Attention
verdict, which maps to exit code 10; it is not surfaced as a tool error. -/
theorem parse_unknown_safety_counterexample :
    parseGenerateResponseDecoded { Command := "ls", Safety := "MAYBE", Explanation := "" } =
      Except.ok { Command := "ls", SafetyLevel := Attention, Reasoning := "" } ∧
    SafetyLevel.ExitCode Attention = CodeDangerous := ⟨rfl, by decide⟩

/-- C9 amended: the parser maps an unknown safety field silently to the
Attention verdict (the fail-closed default of the source switch); only
structurally malformed responses take the error paths of
parseGenerateResponse. -/
theorem parse_unknown_safety_attention (g : geminiResponse)
    (h1 : g.Safety ≠ "SAFE") (h2 : g.Safety ≠ "ATTENTION") :
    parseGenerateResponseDecoded g =
      Except.ok { Command := g.Command, SafetyLevel := Attention, Reasoning := g.Explanation } := by
  simp [parseGenerateResponseDecoded, convertSafety, h1, h2]

/-- Witness for parse_unknown_safety_attention on a concrete malformed safety
field. -/
theorem parse_unknown_safety_attention_witness :
    parseGenerateResponseDecoded { Command := "ls", Safety := "MAYBE", Explanation := "e" } =
      Except.ok { Command := "ls", SafetyLevel := Attention, Reasoning := "e" } :=
  parse_unknown_safety_attention _ (by decide) (by decide)

/-- C10: SafetyLevel is an integer type, and on every value other than Safe
and Attention the exit-code mapper returns the generic error code 1 and the
formatter returns "unknown". -/
theorem safetyLevel_out_of_range (v : SafetyLevel) (h1 : v ≠ Safe) (h2 : v ≠ Attention) :
    SafetyLevel.ExitCode v = 1 ∧ SafetyLevel.string v = "unknown" := by
  constructor
  · simp [SafetyLevel.ExitCode, h1, h2, CodeError]
  · simp [SafetyLevel.string, h1, h2]

/-- Witness for safetyLevel_out_of_range at 999, the value the source test
suite itself uses. -/
theorem safetyLevel_out_of_range_witness :
    SafetyLevel.ExitCode 999 = 1 ∧ SafetyLevel.string 999 = "unknown" :=
  safetyLevel_out_of_range 999 (by decide) (by decide)

end Hermes
